import Mathlib

/-
Verification of the HTPSource patch-ingestion pipeline.

The repository consists of three Python scripts under .github/scripts:
process.py, process_patch.py and process_metadata.py. This file gives a
shallow embedding of the parts of process.py and process_patch.py that
the specification's claims are about:

  * the slug normalizers create_slug (process.py lines 58-62) and
    slugify (process_patch.py lines 133-136), modeled on lists of
    characters with the ASCII fragment of Python's regex classes;
  * the archive structure checks (process.py lines 113-120,
    process_patch.py lines 108-114) and the file-manifest walk
    (process.py lines 134-142, process_patch.py lines 117-131);
  * the info.json version-record merge (process.py lines 181-189,
    process_patch.py lines 195-227);
  * the index.json catalog merge (process.py lines 201-216,
    process_patch.py lines 242-269);
  * the sequential order of persisted-file writes in main
    (process.py steps 5-7), as an effect trace;
  * the required-field check and the field accesses of the manifest
    and version-entry constructions (process.py lines 71-73, 123-132,
    156-157, 170-180), with dict access modeled as fallible lookup.

Strings are modeled by Lean String / List Char; Python dictionaries of
submission fields by association lists; the in-place mutation of JSON
values loaded from disk by pure record updates; and the file system by
explicit arguments and effect traces.  Python's re class \w and
str.lower are modeled on a documented fragment of Unicode: they are
exact on ASCII and on the two non-ASCII characters U+0130 (İ, a word
character whose lower case is the two-character sequence i plus the
combining dot U+0307) and U+0307 (not a word character); the universal
theorems about the slug normalizers carry an explicit all-ASCII
hypothesis on the input, and the one non-ASCII concrete input used by a
counterexample (İ) lies inside the fragment.
-/

/-! ### Slug normalizers

create_slug (process.py lines 58-62):
    text = re.sub(r'[^\w\s-]', '', text)
    return re.sub(r'[\s_]+', '-', text).strip().lower()

slugify (process_patch.py lines 133-136):
    text = re.sub(r'[^\w\s-]', '', text).strip().lower()
    return re.sub(r'[\s-]+', '-', text)
-/

namespace Slug

/-- The Python regex class \w (Unicode word characters), on the fragment of
characters this development's theorems and counterexamples exercise: the
ASCII word characters (letters, digits, underscore), plus the letter İ
(U+0130), which is a word character, while the combining dot above
(U+0307, the second character of İ's lower-case mapping) is not one.
Python's full \w also covers the remaining Unicode letters and digits
(e.g. CJK), which this fragment does not; the universal theorems about the
normalizers are therefore restricted to inputs made of ASCII characters,
where the fragment agrees exactly with Python, and the lone non-ASCII
counterexample input İ stays inside the fragment. -/
def isWordChar (c : Char) : Bool := c.isAlphanum || c == '_' || c.toNat == 0x130

/-- Model of the Python regex class \s (str.isspace for strip). -/
def isSpaceChar (c : Char) : Bool := c.isWhitespace

/-- One character of the class [\s-] used by slugify's second substitution. -/
def isSpaceHyphen (c : Char) : Bool := isSpaceChar c || c == '-'

/-- One character of the class [\s_] used by create_slug's second substitution. -/
def isSpaceUnderscore (c : Char) : Bool := isSpaceChar c || c == '_'

/-- re.sub(r'[^\w\s-]', '', text): delete every character outside \w, \s, hyphen. -/
def keepAllowed (l : List Char) : List Char :=
  l.filter (fun c => isWordChar c || isSpaceChar c || c == '-')

/-- str.strip(): drop leading and trailing whitespace. -/
def stripWs (l : List Char) : List Char :=
  ((l.dropWhile isSpaceChar).reverse.dropWhile isSpaceChar).reverse

/-- str.lower() of one character: a character can lower-case to several
characters.  U+0130 (İ) is the only code point whose unconditional
lower-case mapping has more than one character: it is the two-character
sequence i followed by the combining dot above U+0307.  Other characters
map through the ASCII case mapping (exact on ASCII; non-ASCII characters
outside the modeled fragment are left unchanged). -/
def pyLowerChar (c : Char) : List Char :=
  if c.toNat == 0x130 then ['i', '̇'] else [Char.toLower c]

/-- str.lower() of a string: concatenate the per-character mappings. -/
def lowerAll (l : List Char) : List Char := l.flatMap pyLowerChar

/-- Worker for re.sub(r'[X]+', '-', text): replace each maximal run of
characters of the class p by a single hyphen.  The flag records whether the
previous character belonged to the class (i.e. whether we are inside a run). -/
def replaceRunsAux (p : Char → Bool) : Bool → List Char → List Char
  | _, [] => []
  | prev, c :: cs =>
    if p c then
      if prev then replaceRunsAux p true cs else '-' :: replaceRunsAux p true cs
    else c :: replaceRunsAux p false cs

/-- re.sub(r'[X]+', '-', text) for a character class X given as p. -/
def replaceRuns (p : Char → Bool) (l : List Char) : List Char := replaceRunsAux p false l

/-- slugify from process_patch.py lines 133-136, on lists of characters. -/
def slugifyL (l : List Char) : List Char :=
  replaceRuns isSpaceHyphen (lowerAll (stripWs (keepAllowed l)))

/-- slugify from process_patch.py lines 133-136. -/
def slugify (s : String) : String := ⟨slugifyL s.data⟩

/-- create_slug from process.py lines 58-62, on lists of characters. -/
def create_slugL (l : List Char) : List Char :=
  lowerAll (stripWs (replaceRuns isSpaceUnderscore (keepAllowed l)))

/-- create_slug from process.py lines 58-62. -/
def create_slug (s : String) : String := ⟨create_slugL s.data⟩

/-- A lower-case ASCII letter or digit, the class [a-z0-9] of the spec regex. -/
def isLowerDigit (c : Char) : Bool := c.isLower || c.isDigit

/-- Recognizer for the spec regex [a-z0-9]+(-[a-z0-9]+)* , written as a small
automaton over the characters: the flag records whether the next character
must begin a new nonempty [a-z0-9]+ group. -/
def shapeAux : Bool → List Char → Bool
  | needFirst, [] => !needFirst
  | needFirst, c :: cs =>
    if isLowerDigit c then shapeAux false cs
    else if c == '-' && !needFirst then shapeAux true cs
    else false

/-- The output shape stated by the spec: the empty string, or a match of
the regex [a-z0-9]+(-[a-z0-9]+)* anchored at both ends. -/
def matchesSlugShape (s : String) : Bool :=
  s == "" || shapeAux true s.data

/-- The character class kept by the first substitution of both normalizers. -/
def allowedChar (c : Char) : Bool := isWordChar c || isSpaceChar c || c == '-'

/-- Characters that can occur in slugify output: lower-case alphanumerics
(fixed by toLower), underscore, hyphen. -/
def slugChar (c : Char) : Bool :=
  (c.isAlphanum && (Char.toLower c == c)) || c == '_' || c == '-'

/-- Characters that can occur in create_slug output: lower-case
alphanumerics and hyphen (create_slug collapses underscores away). -/
def createSlugChar (c : Char) : Bool :=
  (c.isAlphanum && (Char.toLower c == c)) || c == '-'

end Slug

/-! ### Data model shared by the scripts -/

/-- One supported-modpack triple (type, name, version), one line of the
supported modpacks form field. -/
structure ModpackRef where
  type : String
  name : String
  version : String
deriving DecidableEq

/-- One entry of the file manifest (process.py lines 139-142,
process_patch.py lines 125-130). -/
structure FileRecord where
  operation : String
  path : String
  targetPath : String
  patchedSha1 : String
deriving DecidableEq

/-- One downloads entry of a version record. -/
structure Download where
  type : String
  name : String
  url : String
  sha1 : String
deriving DecidableEq

/-- One element of the versions list of info.json. -/
structure VersionEntry where
  patchVersion : String
  releaseDate : String
  changelog : String
  supportedModpackVersions : List ModpackRef
  downloads : List Download
deriving DecidableEq

/-- One patch summary stored in index.json under a modpack key. -/
structure PatchSummary where
  infoPath : String
  patchId : String
  patchName : String
  author : String
  description : String
  latestVersion : String
  translationType : String
  availableDownloadTypes : List String
deriving DecidableEq

/-- index.json.  The patches mapping is modeled as a total function from keys
to summary lists with default value []; the scripts create a missing key as
an empty list before use, which coincides with this default. -/
structure IndexData where
  formatVersion : Nat
  lastUpdated : String
  patches : String → List PatchSummary

/-- modpack_key = type.lower() + ":" + name (process.py line 205,
process_patch.py line 246); str.lower modeled by the ASCII case mapping
(the modpack type strings exercised here are ASCII). -/
def targetKey (m : ModpackRef) : String :=
  String.mk (m.type.data.map Char.toLower) ++ ":" ++ m.name

/-- The for-loop over supported modpacks shared by both catalog merges: each
iteration reads the current list at the key derived from the modpack (an
absent key means the empty list) and stores back the transformed list. -/
def foldTargets (f : List PatchSummary → List PatchSummary) (ts : List ModpackRef)
    (patches : String → List PatchSummary) : String → List PatchSummary :=
  ts.foldl (fun acc m => fun k => if k = targetKey m then f (acc (targetKey m)) else acc k)
    patches

/-- Archive-structure failure: both scripts print an error and exit. -/
inductive ArchiveErr where
  | invalidArchiveStructure
deriving DecidableEq

/-- The persisted files a run can write. -/
inductive FileWrite where
  | packageHtp
  | infoJson
  | indexJson
deriving DecidableEq

/-- A fatal error during the persistence phase. -/
inductive RunErr where
  | persistedStateCorrupt
deriving DecidableEq

/-- s.startswith(p), on the underlying characters. -/
def beginsWith (p s : String) : Bool := s.data.take p.data.length == p.data

/-- The fields of a summary other than latestVersion and description. -/
def othersOf (s : PatchSummary) :
    String × String × String × String × String × List String :=
  (s.infoPath, s.patchId, s.patchName, s.author, s.translationType,
    s.availableDownloadTypes)

/-! ### process.py -/

namespace Process

/-- Python dict access data[k] on the parsed issue form, raising KeyError
when the key is absent, modeled as Except with the missing key as error. -/
def getKey (data : List (String × String)) (k : String) : Except String String :=
  match data.lookup k with
  | some v => Except.ok v
  | none => Except.error k

/-- The keys demanded by the completeness check, process.py line 71. -/
def requiredKeys : List String :=
  ["patchName", "patchAuthor", "patchVersion", "supportedModpacks", "attachment"]

/-- all(k in data for k in requiredKeys), process.py line 71. -/
def formComplete (data : List (String × String)) : Bool :=
  requiredKeys.all (fun k => (data.lookup k).isSome)

/-- The translation manifest built at process.py lines 123-132. -/
structure Manifest where
  formatVersion : Nat
  patchName : String
  patchVersion : String
  patchAuthor : String
  description : String
  translationType : String
  supportedModpacks : List ModpackRef
  fileManifest : List FileRecord
deriving DecidableEq

/-- process.py lines 123-132: build the manifest header from the parsed issue
data; the dict literal reads patchName, patchVersion, patchAuthor and then
description, so a missing description raises KeyError there. -/
def buildManifestMeta (data : List (String × String)) (mods : List ModpackRef)
    (files : List FileRecord) : Except String Manifest := do
  let pn ← getKey data "patchName"
  let pv ← getKey data "patchVersion"
  let pa ← getKey data "patchAuthor"
  let desc ← getKey data "description"
  pure { formatVersion := 1, patchName := pn, patchVersion := pv, patchAuthor := pa,
         description := desc, translationType := "manual", supportedModpacks := mods,
         fileManifest := files }

/-- str.lstrip(c): remove every leading occurrence of the character c. -/
def lstrip (c : Char) (s : String) : String :=
  String.mk (s.data.dropWhile (fun x => x == c))

/-- process.py line 156: the package file name is
patch_slug + "-" + patchVersion.lstrip('v') + ".htp". -/
def htpFilename (patchSlug patchVersion : String) : String :=
  patchSlug ++ "-" ++ lstrip 'v' patchVersion ++ ".htp"

/-- process.py lines 170-180: the new version entry for info.json; the dict
literal reads patchVersion and then changelog, so a missing changelog raises
KeyError there; patchVersion is recorded verbatim (no lstrip). -/
def mkVersionEntry (data : List (String × String)) (now : String)
    (mods : List ModpackRef) (url sha1Val : String) : Except String VersionEntry := do
  let pv ← getKey data "patchVersion"
  let cl ← getKey data "changelog"
  pure { patchVersion := pv, releaseDate := now, changelog := cl,
         supportedModpackVersions := mods,
         downloads := [{ type := "direct", name := "GitHub Raw", url := url, sha1 := sha1Val }] }

/-- process.py lines 113-116: the archive check accepts the zip as soon as
any entry name starts with "overrides/", and otherwise exits with
the structure error before extraction. -/
def zipCheck (names : List String) : Except ArchiveErr Unit :=
  if names.any (fun n => beginsWith "overrides/" n) then Except.ok ()
  else Except.error ArchiveErr.invalidArchiveStructure

/-- info.json contents, process.py lines 181-189 (no website field). -/
structure InfoData where
  formatVersion : Nat
  patchId : String
  patchName : String
  author : String
  description : String
  versions : List VersionEntry
deriving DecidableEq

/-- process.py lines 181-189: if info.json exists, insert the new entry at
index 0 of its versions; otherwise create a fresh record whose header comes
from the submission and whose versions list is exactly the new entry. -/
def updateInfo (existing : Option InfoData) (pid patchName author description : String)
    (entry : VersionEntry) : InfoData :=
  match existing with
  | some info => { info with versions := entry :: info.versions }
  | none =>
    { formatVersion := 1, patchId := pid, patchName := patchName, author := author,
      description := description, versions := [entry] }

/-- The summary dict appended at process.py lines 211-216. -/
def mkSummary (authorSlug patchSlug pid patchName author description version : String) :
    PatchSummary :=
  { infoPath := "./patches/" ++ authorSlug ++ "/" ++ patchSlug ++ "/info.json",
    patchId := pid, patchName := patchName, author := author, description := description,
    latestVersion := version, translationType := "manual",
    availableDownloadTypes := ["direct"] }

/-- Loop body at process.py lines 209-216 for one modpack key: when a summary
with this patchId already exists nothing at all is changed; otherwise the new
summary is appended at the end of the list. -/
def mergeOne (pid : String) (s : PatchSummary) (l : List PatchSummary) :
    List PatchSummary :=
  if l.any (fun x => x.patchId == pid) then l else l ++ [s]

/-- process.py lines 194-218: the in-memory index.json update; lastUpdated is
set once per run, then every supported modpack key gets mergeOne applied. -/
def mergeCatalog (idx : IndexData) (now : String) (pid : String) (s : PatchSummary)
    (mods : List ModpackRef) : IndexData :=
  { formatVersion := idx.formatVersion, lastUpdated := now,
    patches := foldTargets (mergeOne pid s) mods idx.patches }

/-- The order of persisted-file effects in process.py main steps 5-7: the
.htp package is written (line 159), info.json is written (lines 190-191), and
only then is an existing index.json opened and parsed (lines 196-197); a
parse failure there raises an uncaught JSONDecodeError, so index.json is
never written, but the two earlier writes have already happened. -/
def persistPhase (indexParseOk : Bool) : List FileWrite × Option RunErr :=
  if indexParseOk then
    ([FileWrite.packageHtp, FileWrite.infoJson, FileWrite.indexJson], none)
  else
    ([FileWrite.packageHtp, FileWrite.infoJson], some RunErr.persistedStateCorrupt)

end Process

/-! ### process_patch.py -/

namespace ProcessPatch

/-- The parsed submission fields used after parse_issue_body succeeded
(process_patch.py lines 145-186). -/
structure Submission where
  patchName : String
  patchAuthor : String
  patchVersion : String
  description : String
  changelog : String
  translationType : String
  website : String
  supportedModpacksList : List ModpackRef
deriving DecidableEq

/-- One member of the uploaded zip: its stored name and its byte content
(bytes modeled as characters). A directory member's name ends with "/". -/
structure ZipEntry where
  name : String
  content : List Char
deriving DecidableEq

/-- Split a name at slashes (worker, accumulating the current component). -/
def splitSlashAux : List Char → List Char → List (List Char)
  | cur, [] => [cur.reverse]
  | cur, c :: cs =>
    if c = '/' then cur.reverse :: splitSlashAux [] cs else splitSlashAux (c :: cur) cs

/-- First component of os.path.normpath applied to an entry name
(process_patch.py line 110): empty components and "." components are
dropped; normpath of the empty string is "."; ".." components are not
resolved (zip uploads here never contain them). -/
def topComponent (n : String) : String :=
  match (splitSlashAux [] n.data).filter
      (fun s => !(s.isEmpty) && !(s == ['.'])) with
  | [] => "."
  | c :: _ => String.mk c

/-- process_patch.py lines 110-113: the set comprehension collects the top
path component of every entry name and compares the set with the singleton
containing "overrides".  Set equality holds exactly when the name list is
nonempty and every top component equals "overrides". -/
def rootsValid (names : List String) : Bool :=
  !names.isEmpty && names.all (fun n => topComponent n == "overrides")

/-- A zip directory member (its stored name ends with "/"); only regular
file members are extracted as files and visited by os.walk. -/
def isDirEntry (e : ZipEntry) : Bool := e.name.data.getLast? == some '/'

/-- os.path.relpath(full_path, overrides_path) for a file extracted from an
entry named "overrides/<rel>": drop the "overrides/" prefix, 10 characters. -/
def relFromOverrides (n : String) : String := String.mk (n.data.drop 10)

/-- generate_file_manifest, process_patch.py lines 99-131: validate that the
top-level entries are exactly overrides (exiting with the structure error
before extracting anything), then walk the extracted overrides tree and emit
one record per regular file.  Extraction is modeled by reading the file
entries of the archive directly; sha1 is the content digest function. -/
def generate_file_manifest (sha1 : List Char → String) (entries : List ZipEntry) :
    Except ArchiveErr (List FileRecord) :=
  if rootsValid (entries.map (fun e => e.name)) then
    Except.ok ((entries.filter (fun e => !isDirEntry e)).map (fun e =>
      { operation := "overwrite", path := relFromOverrides e.name,
        targetPath := relFromOverrides e.name, patchedSha1 := sha1 e.content }))
  else Except.error ArchiveErr.invalidArchiveStructure

/-- info.json contents, process_patch.py lines 199-207 (with website). -/
structure InfoData where
  formatVersion : Nat
  patchId : String
  patchName : String
  author : String
  description : String
  website : String
  versions : List VersionEntry
deriving DecidableEq

/-- process_patch.py lines 195-227: load info.json if it exists, otherwise
create a fresh record with header fields from the submission and an empty
versions list; then insert the new entry at position 0. -/
def updateInfo (existing : Option InfoData) (pid : String) (data : Submission)
    (entry : VersionEntry) : InfoData :=
  let info :=
    match existing with
    | some i => i
    | none =>
      { formatVersion := 1, patchId := pid, patchName := data.patchName,
        author := data.patchAuthor, description := data.description,
        website := data.website, versions := [] }
  { info with versions := entry :: info.versions }

/-- The in-place mutation of the first summary whose patchId matches: the
object found by next(...) at process_patch.py line 253 gets its
latestVersion and description fields overwritten (lines 256-257). -/
def updateFirst (pid v d : String) : List PatchSummary → List PatchSummary
  | [] => []
  | s :: rest =>
    if s.patchId == pid then
      { s with latestVersion := v, description := d } :: rest
    else s :: updateFirst pid v d rest

/-- The new summary appended at process_patch.py lines 258-269. -/
def mkSummary (pid authorSlug patchSlug : String) (data : Submission) : PatchSummary :=
  { infoPath := "./patches/" ++ authorSlug ++ "/" ++ patchSlug ++ "/info.json",
    patchId := pid, patchName := data.patchName, author := data.patchAuthor,
    description := data.description, latestVersion := data.patchVersion,
    translationType := data.translationType, availableDownloadTypes := ["direct"] }

/-- Loop body at process_patch.py lines 250-269 for one modpack key: find the
first summary with this patchId; if present update it in place, otherwise
append the new summary. -/
def mergeOne (pid authorSlug patchSlug : String) (data : Submission)
    (l : List PatchSummary) : List PatchSummary :=
  match l.find? (fun p => p.patchId == pid) with
  | some _ => updateFirst pid data.patchVersion data.description l
  | none => l ++ [mkSummary pid authorSlug patchSlug data]

/-- process_patch.py lines 233-273: the in-memory index.json update. -/
def mergeCatalog (idx : IndexData) (now : String) (authorSlug patchSlug : String)
    (data : Submission) : IndexData :=
  { formatVersion := idx.formatVersion, lastUpdated := now,
    patches :=
      foldTargets (mergeOne (authorSlug ++ "/" ++ patchSlug) authorSlug patchSlug data)
        data.supportedModpacksList idx.patches }

/-- The order of persisted-file effects in process_patch.py main steps 6-7:
info.json is written (lines 229-230) before an existing index.json is opened
and parsed (lines 236-238); a parse failure there raises an uncaught
JSONDecodeError, so index.json is never written, but info.json already was. -/
def persistPhase (indexParseOk : Bool) : List FileWrite × Option RunErr :=
  if indexParseOk then ([FileWrite.infoJson, FileWrite.indexJson], none)
  else ([FileWrite.infoJson], some RunErr.persistedStateCorrupt)

end ProcessPatch

/-! ### Concrete fixtures -/

/-- A sample supported-modpack triple; its catalog key is curseforge:PackA. -/
def sampleTarget : ModpackRef := { type := "CurseForge", name := "PackA", version := "1.0" }

/-- A summary already present in the catalog before a resubmission. -/
def sampleSummaryOld : PatchSummary :=
  { infoPath := "./patches/team-x/my-patch/info.json", patchId := "team-x/my-patch",
    patchName := "My Patch", author := "Old Author", description := "old description",
    latestVersion := "1.0.0", translationType := "manual",
    availableDownloadTypes := ["direct"] }

/-- A catalog index holding exactly the sample summary under the sample key. -/
def sampleIndex : IndexData :=
  { formatVersion := 1, lastUpdated := "",
    patches := fun k => if k = "curseforge:PackA" then [sampleSummaryOld] else [] }

/-- A catalog index with no patches at all. -/
def emptyIndex : IndexData :=
  { formatVersion := 1, lastUpdated := "", patches := fun _ => [] }

/-- A resubmission of the same patch with new version, author and description. -/
def sampleSubmission : ProcessPatch.Submission :=
  { patchName := "My Patch", patchAuthor := "New Author", patchVersion := "2.0.0",
    description := "new description", changelog := "changes", translationType := "manual",
    website := "", supportedModpacksList := [sampleTarget] }

/-- The parsed form data of the claimed example submission, with description
and changelog present. -/
def sampleFormData : List (String × String) :=
  [("patchName", "My Patch"), ("patchAuthor", "Team X"), ("patchVersion", "v1.0.0"),
   ("supportedModpacks", "CurseForge, PackA, 1.0"), ("attachment", "[p.zip](u)"),
   ("description", "d"), ("changelog", "c")]

/-- The parsed form data of a submission that omits the description and
changelog sections but contains every key required by the check. -/
def incompleteFormData : List (String × String) :=
  [("patchName", "My Patch"), ("patchAuthor", "Team X"), ("patchVersion", "v1.0.0"),
   ("supportedModpacks", "CurseForge, PackA, 1.0"), ("attachment", "[p.zip](u)")]

/-! ### Supporting facts about characters -/

theorem char_toNat_inj {c d : Char} (h : c.toNat = d.toNat) : c = d :=
  Char.ext (UInt32.ext h)

theorem char_eq_iff_toNat {c d : Char} : c = d ↔ c.toNat = d.toNat :=
  ⟨fun h => h ▸ rfl, char_toNat_inj⟩

theorem uint32_ofNat_le_iff {a : UInt32} {n : Nat} (hn : n < 4294967296) :
    (UInt32.ofNat n ≤ a) ↔ n ≤ a.toNat := by
  constructor
  · exact UInt32.le_toNat_of_le hn
  · intro h
    simp only [UInt32.le_def, BitVec.le_def]
    simpa [UInt32.ofNat, BitVec.toNat_ofNat, Nat.mod_eq_of_lt hn] using h

theorem uint32_le_ofNat_iff {a : UInt32} {n : Nat} (hn : n < 4294967296) :
    (a ≤ UInt32.ofNat n) ↔ a.toNat ≤ n := by
  constructor
  · exact UInt32.toNat_le_of_le hn
  · intro h
    simp only [UInt32.le_def, BitVec.le_def]
    simpa [UInt32.ofNat, BitVec.toNat_ofNat, Nat.mod_eq_of_lt hn] using h

theorem char_isUpper_iff {c : Char} : c.isUpper = true ↔ 65 ≤ c.toNat ∧ c.toNat ≤ 90 := by
  simp only [Char.isUpper, Bool.and_eq_true, decide_eq_true_eq, ge_iff_le]
  rw [show (65 : UInt32) = UInt32.ofNat 65 from rfl, show (90 : UInt32) = UInt32.ofNat 90 from rfl]
  rw [uint32_ofNat_le_iff (by norm_num), uint32_le_ofNat_iff (by norm_num)]
  exact Iff.rfl

theorem char_isLower_iff {c : Char} : c.isLower = true ↔ 97 ≤ c.toNat ∧ c.toNat ≤ 122 := by
  simp only [Char.isLower, Bool.and_eq_true, decide_eq_true_eq, ge_iff_le]
  rw [show (97 : UInt32) = UInt32.ofNat 97 from rfl, show (122 : UInt32) = UInt32.ofNat 122 from rfl]
  rw [uint32_ofNat_le_iff (by norm_num), uint32_le_ofNat_iff (by norm_num)]
  exact Iff.rfl

theorem char_isDigit_iff {c : Char} : c.isDigit = true ↔ 48 ≤ c.toNat ∧ c.toNat ≤ 57 := by
  simp only [Char.isDigit, Bool.and_eq_true, decide_eq_true_eq, ge_iff_le]
  rw [show (48 : UInt32) = UInt32.ofNat 48 from rfl, show (57 : UInt32) = UInt32.ofNat 57 from rfl]
  rw [uint32_ofNat_le_iff (by norm_num), uint32_le_ofNat_iff (by norm_num)]
  exact Iff.rfl

theorem char_isAlphanum_iff {c : Char} :
    c.isAlphanum = true ↔
      (65 ≤ c.toNat ∧ c.toNat ≤ 90) ∨ (97 ≤ c.toNat ∧ c.toNat ≤ 122) ∨
        (48 ≤ c.toNat ∧ c.toNat ≤ 57) := by
  simp only [Char.isAlphanum, Char.isAlpha, Bool.or_eq_true]
  rw [char_isUpper_iff, char_isLower_iff, char_isDigit_iff]
  tauto

theorem char_isWhitespace_iff {c : Char} :
    c.isWhitespace = true ↔ (c.toNat = 32 ∨ c.toNat = 9 ∨ c.toNat = 13 ∨ c.toNat = 10) := by
  simp only [Char.isWhitespace, Bool.or_eq_true, decide_eq_true_eq]
  rw [char_eq_iff_toNat, char_eq_iff_toNat, char_eq_iff_toNat, char_eq_iff_toNat]
  tauto

theorem char_toNat_ofNat {n : Nat} (h : n.isValidChar) : (Char.ofNat n).toNat = n := by
  rw [Char.ofNat, dif_pos h]
  rfl

theorem char_toLower_toNat (c : Char) (h : 65 ≤ c.toNat ∧ c.toNat ≤ 90) :
    (Char.toLower c).toNat = c.toNat + 32 := by
  rw [Char.toLower, if_pos ⟨h.1, h.2⟩]
  exact char_toNat_ofNat (Or.inl (by omega))

theorem char_toLower_eq_self (c : Char) (h : ¬(65 ≤ c.toNat ∧ c.toNat ≤ 90)) :
    Char.toLower c = c := by
  rw [Char.toLower, if_neg]
  intro hc
  exact h ⟨hc.1, hc.2⟩

theorem char_toLower_idem (c : Char) : (Char.toLower c).toLower = c.toLower := by
  by_cases h : 65 ≤ c.toNat ∧ c.toNat ≤ 90
  · have h2 := char_toLower_toNat c h
    apply char_toLower_eq_self
    omega
  · rw [char_toLower_eq_self c h, char_toLower_eq_self c h]

/-- Either toLower leaves the character unchanged, or the character is an
upper-case ASCII letter and the result is the corresponding lower-case one. -/
theorem char_toLower_cases (c : Char) :
    Char.toLower c = c ∨
      (65 ≤ c.toNat ∧ c.toNat ≤ 90 ∧ (Char.toLower c).toNat = c.toNat + 32) := by
  by_cases h : 65 ≤ c.toNat ∧ c.toNat ≤ 90
  · exact Or.inr ⟨h.1, h.2, char_toLower_toNat c h⟩
  · exact Or.inl (char_toLower_eq_self c h)

theorem char_toLower_isAlphanum {c : Char} (h : c.isAlphanum = true) :
    (Char.toLower c).isAlphanum = true := by
  rcases char_toLower_cases c with hc | ⟨_, _, hc⟩
  · rwa [hc]
  · rw [char_isAlphanum_iff] at h ⊢
    omega

theorem char_toLower_not_isWhitespace {c : Char} (h : c.isWhitespace = false) :
    (Char.toLower c).isWhitespace = false := by
  rcases char_toLower_cases c with hc | ⟨h1, h2, hc⟩
  · rwa [hc]
  · rw [Bool.eq_false_iff]
    intro hw
    rw [char_isWhitespace_iff] at hw
    omega

theorem char_toLower_ne {c : Char} {d : Char} (hd : d.toNat < 97 ∨ 122 < d.toNat)
    (h : c ≠ d) : Char.toLower c ≠ d := by
  rcases char_toLower_cases c with hc | ⟨h1, h2, hc⟩
  · rwa [hc]
  · intro he
    rw [char_eq_iff_toNat] at he
    omega

/-! ### Properties of the slug normalizers -/

namespace Slug

theorem keepAllowed_def (l : List Char) : keepAllowed l = l.filter allowedChar := rfl

theorem mem_keepAllowed {c : Char} {l : List Char} (h : c ∈ keepAllowed l) :
    c ∈ l ∧ allowedChar c = true := by
  rw [keepAllowed_def] at h
  exact ⟨List.mem_of_mem_filter h, List.of_mem_filter h⟩

theorem dropWhile_eq_self_of {q : Char → Bool} {l : List Char}
    (h : ∀ c ∈ l, q c = false) : l.dropWhile q = l := by
  cases l with
  | nil => rfl
  | cons c cs =>
    rw [List.dropWhile_cons, if_neg]
    rw [h c (by simp)]
    simp

theorem mem_stripWs {c : Char} {l : List Char} (h : c ∈ stripWs l) : c ∈ l := by
  unfold stripWs at h
  rw [List.mem_reverse] at h
  have h1 := (List.dropWhile_sublist _).mem h
  rw [List.mem_reverse] at h1
  exact (List.dropWhile_sublist _).mem h1

theorem stripWs_eq_self {l : List Char} (h : ∀ c ∈ l, isSpaceChar c = false) :
    stripWs l = l := by
  unfold stripWs
  rw [dropWhile_eq_self_of h]
  rw [dropWhile_eq_self_of (fun c hc => h c (List.mem_reverse.mp hc))]
  exact List.reverse_reverse l

theorem pyLowerChar_not_special {c : Char} (h : c.toNat ≠ 0x130) :
    pyLowerChar c = [Char.toLower c] := by
  rw [pyLowerChar, if_neg]
  simp [h]

theorem mem_lowerAll {c : Char} {l : List Char} (h : c ∈ lowerAll l) :
    ∃ d ∈ l, c ∈ pyLowerChar d := List.mem_flatMap.mp h

theorem lowerAll_eq_self : ∀ {l : List Char}, (∀ c ∈ l, pyLowerChar c = [c]) →
    lowerAll l = l := by
  intro l
  induction l with
  | nil => intro _; rfl
  | cons c cs ih =>
    intro h
    rw [lowerAll, List.flatMap_cons, h c (List.mem_cons_self c cs)]
    rw [show cs.flatMap pyLowerChar = lowerAll cs from rfl,
      ih fun d hd => h d (List.mem_cons_of_mem c hd)]
    rfl

theorem mem_replaceRunsAux {p : Char → Bool} :
    ∀ {l : List Char} {prev : Bool} {c : Char}, c ∈ replaceRunsAux p prev l →
      c = '-' ∨ (c ∈ l ∧ p c = false) := by
  intro l
  induction l with
  | nil => intro prev c h; simp [replaceRunsAux] at h
  | cons d ds ih =>
    intro prev c h
    rw [replaceRunsAux] at h
    by_cases hp : p d
    · rw [if_pos hp] at h
      by_cases hprev : prev
      · rw [if_pos hprev] at h
        rcases ih h with h1 | ⟨h1, h2⟩
        · exact Or.inl h1
        · exact Or.inr ⟨List.mem_cons_of_mem d h1, h2⟩
      · rw [if_neg hprev] at h
        rcases List.mem_cons.mp h with h1 | h1
        · exact Or.inl h1
        · rcases ih h1 with h2 | ⟨h2, h3⟩
          · exact Or.inl h2
          · exact Or.inr ⟨List.mem_cons_of_mem d h2, h3⟩
    · rw [if_neg hp] at h
      rcases List.mem_cons.mp h with h1 | h1
      · subst h1; exact Or.inr ⟨List.mem_cons_self c ds, by simpa using hp⟩
      · rcases ih h1 with h2 | ⟨h2, h3⟩
        · exact Or.inl h2
        · exact Or.inr ⟨List.mem_cons_of_mem d h2, h3⟩

theorem replaceRunsAux_true_head {p : Char → Bool} :
    ∀ {l : List Char} {c : Char}, (replaceRunsAux p true l).head? = some c →
      p c = false := by
  intro l
  induction l with
  | nil => intro c h; simp [replaceRunsAux] at h
  | cons d ds ih =>
    intro c h
    rw [replaceRunsAux] at h
    by_cases hp : p d
    · rw [if_pos hp, if_pos rfl] at h
      exact ih h
    · rw [if_neg hp] at h
      simp only [List.head?_cons, Option.some.injEq] at h
      subst h
      simpa using hp

theorem chain'_replaceRunsAux {p : Char → Bool} :
    ∀ (l : List Char) (prev : Bool),
      List.Chain' (fun a b => ¬(p a = true ∧ p b = true)) (replaceRunsAux p prev l) := by
  intro l
  induction l with
  | nil => intro prev; simp [replaceRunsAux]
  | cons d ds ih =>
    intro prev
    rw [replaceRunsAux]
    by_cases hp : p d
    · rw [if_pos hp]
      by_cases hprev : prev
      · rw [if_pos hprev]; exact ih true
      · rw [if_neg hprev]
        rw [List.chain'_cons']
        refine ⟨?_, ih true⟩
        intro y hy
        have := replaceRunsAux_true_head hy
        intro hc
        rw [this] at hc
        exact Bool.false_ne_true hc.2
    · rw [if_neg hp]
      rw [List.chain'_cons']
      refine ⟨?_, ih false⟩
      intro y _ hc
      exact hp hc.1

theorem replaceRunsAux_eq_self {p : Char → Bool} :
    ∀ {l : List Char} {prev : Bool},
      (∀ c ∈ l, p c = true → c = '-') →
      List.Chain' (fun a b => ¬(p a = true ∧ p b = true)) l →
      (prev = true → ∀ c, l.head? = some c → p c = false) →
      replaceRunsAux p prev l = l := by
  intro l
  induction l with
  | nil => intro prev _ _ _; rfl
  | cons d ds ih =>
    intro prev h1 h2 h3
    rw [replaceRunsAux]
    by_cases hp : p d
    · have hprev : prev = false := by
        cases prev with
        | false => rfl
        | true => exact absurd hp (by simp [h3 rfl d rfl])
      subst hprev
      rw [if_pos hp, if_neg Bool.false_ne_true]
      have hd : d = '-' := h1 d (List.mem_cons_self d ds) hp
      subst hd
      congr 1
      apply ih (fun c hc => h1 c (List.mem_cons_of_mem _ hc)) (List.chain'_cons'.mp h2).2
      intro _ c hc
      have := (List.chain'_cons'.mp h2).1 c (by simpa using hc)
      by_contra hb
      exact this ⟨hp, by simpa using hb⟩
    · rw [if_neg hp]
      congr 1
      apply ih (fun c hc => h1 c (List.mem_cons_of_mem _ hc)) (List.chain'_cons'.mp h2).2
      intro hfalse
      exact absurd hfalse Bool.false_ne_true

theorem char_alnum_not_space {c : Char} (h : c.isAlphanum = true) :
    c.isWhitespace = false := by
  rw [char_isAlphanum_iff] at h
  rw [Bool.eq_false_iff]
  intro hw
  rw [char_isWhitespace_iff] at hw
  omega

theorem char_alnum_ne_hyphen {c : Char} (h : c.isAlphanum = true) : c ≠ '-' := by
  rw [char_isAlphanum_iff] at h
  intro he
  rw [char_eq_iff_toNat] at he
  simp only [show ('-').toNat = 45 from rfl] at he
  omega

theorem char_alnum_ne_underscore {c : Char} (h : c.isAlphanum = true) : c ≠ '_' := by
  rw [char_isAlphanum_iff] at h
  intro he
  rw [char_eq_iff_toNat] at he
  simp only [show ('_').toNat = 95 from rfl] at he
  omega

theorem slugChar_props {c : Char} (h : slugChar c = true) :
    allowedChar c = true ∧ isSpaceChar c = false ∧ Char.toLower c = c ∧
      (isSpaceHyphen c = true → c = '-') := by
  unfold slugChar at h
  simp only [Bool.or_eq_true, Bool.and_eq_true, beq_iff_eq] at h
  rcases h with (⟨ha, hl⟩ | h) | h
  · refine ⟨?_, ?_, hl, ?_⟩
    · simp [allowedChar, isWordChar, ha]
    · simp [isSpaceChar, char_alnum_not_space ha]
    · intro hsh
      simp only [isSpaceHyphen, isSpaceChar, Bool.or_eq_true, beq_iff_eq] at hsh
      rcases hsh with hsh | hsh
      · rw [char_alnum_not_space ha] at hsh; exact absurd hsh Bool.false_ne_true
      · exact hsh
  · subst h
    exact ⟨by decide, by decide, by decide, by decide⟩
  · subst h
    exact ⟨by decide, by decide, by decide, fun _ => rfl⟩

theorem createSlugChar_props {c : Char} (h : createSlugChar c = true) :
    allowedChar c = true ∧ isSpaceChar c = false ∧ Char.toLower c = c ∧
      isSpaceUnderscore c = false := by
  unfold createSlugChar at h
  simp only [Bool.or_eq_true, Bool.and_eq_true, beq_iff_eq] at h
  rcases h with ⟨ha, hl⟩ | h
  · refine ⟨?_, ?_, hl, ?_⟩
    · simp [allowedChar, isWordChar, ha]
    · simp [isSpaceChar, char_alnum_not_space ha]
    · simp only [isSpaceUnderscore, isSpaceChar, Bool.or_eq_false_iff]
      constructor
      · exact char_alnum_not_space ha
      · simp [char_alnum_ne_underscore ha]
  · subst h
    exact ⟨by decide, by decide, by decide, by decide⟩

/-- Every character of slugify output is a slug character, for inputs made
of ASCII characters (where the modeled fragment of \w and str.lower agrees
exactly with Python). -/
theorem slugifyL_chars {l : List Char} (hl : ∀ c ∈ l, c.toNat < 128) :
    ∀ c ∈ slugifyL l, slugChar c = true := by
  intro c hc
  unfold slugifyL at hc
  rcases mem_replaceRunsAux hc with hc1 | ⟨hc1, hc2⟩
  · subst hc1; decide
  · rcases mem_lowerAll hc1 with ⟨d, hd, hdc⟩
    have hdl := (mem_keepAllowed (mem_stripWs hd)).1
    have hda := (mem_keepAllowed (mem_stripWs hd)).2
    have hdascii : d.toNat < 128 := hl d hdl
    rw [pyLowerChar_not_special (by omega)] at hdc
    have hdc2 : c = Char.toLower d := List.mem_singleton.mp hdc
    unfold allowedChar isWordChar at hda
    simp only [Bool.or_eq_true, Bool.and_eq_true, beq_iff_eq] at hda
    rcases hda with (((hda | hda) | hda) | hda) | hda
    · subst hdc2
      unfold slugChar
      simp [char_toLower_isAlphanum hda, char_toLower_idem]
    · subst hda; subst hdc2
      decide
    · omega
    · exfalso
      have hspace : Char.toLower d = d := by
        apply char_toLower_eq_self
        unfold isSpaceChar at hda
        rw [char_isWhitespace_iff] at hda
        omega
      rw [hspace] at hdc2
      subst hdc2
      simp only [isSpaceHyphen, isSpaceChar, Bool.or_eq_false_iff] at hc2
      unfold isSpaceChar at hda
      rw [hda] at hc2
      exact absurd hc2.1 (by simp)
    · subst hda; subst hdc2
      decide

/-- Every character of create_slug output is a create_slug character, for
inputs made of ASCII characters. -/
theorem create_slugL_chars {l : List Char} (hl : ∀ c ∈ l, c.toNat < 128) :
    ∀ c ∈ create_slugL l, createSlugChar c = true := by
  intro c hc
  unfold create_slugL at hc
  rcases mem_lowerAll hc with ⟨d, hd, hdc⟩
  rcases mem_replaceRunsAux (mem_stripWs hd) with hd1 | ⟨hd1, hd2⟩
  · subst hd1
    rw [show pyLowerChar '-' = ['-'] from rfl] at hdc
    rw [List.mem_singleton.mp hdc]
    decide
  · have hdl := (mem_keepAllowed hd1).1
    have hda := (mem_keepAllowed hd1).2
    have hdascii : d.toNat < 128 := hl d hdl
    rw [pyLowerChar_not_special (by omega)] at hdc
    have hdc2 : c = Char.toLower d := List.mem_singleton.mp hdc
    unfold allowedChar isWordChar at hda
    simp only [Bool.or_eq_true, Bool.and_eq_true, beq_iff_eq] at hda
    simp only [isSpaceUnderscore, isSpaceChar, Bool.or_eq_false_iff, beq_eq_false_iff_ne,
      ne_eq] at hd2
    rcases hda with (((hda | hda) | hda) | hda) | hda
    · subst hdc2
      unfold createSlugChar
      simp [char_toLower_isAlphanum hda, char_toLower_idem]
    · exact absurd hda hd2.2
    · omega
    · unfold isSpaceChar at hda
      rw [hda] at hd2
      exact absurd hd2.1 (by simp)
    · subst hda; subst hdc2
      decide

/-- slugify output never contains two adjacent hyphens. -/
theorem slugifyL_no_adjacent_hyphens (l : List Char) :
    List.Chain' (fun a b => ¬(a = '-' ∧ b = '-')) (slugifyL l) := by
  have h := chain'_replaceRunsAux (p := isSpaceHyphen)
    (lowerAll (stripWs (keepAllowed l))) false
  apply List.Chain'.imp _ h
  intro a b hab ⟨ha, hb⟩
  subst ha; subst hb
  exact hab ⟨by decide, by decide⟩

theorem chain'_of_no_class {p : Char → Bool} :
    ∀ {l : List Char}, (∀ c ∈ l, p c = false) →
      List.Chain' (fun a b => ¬(p a = true ∧ p b = true)) l := by
  intro l
  induction l with
  | nil => intro _; simp
  | cons c cs ih =>
    intro h
    rw [List.chain'_cons']
    refine ⟨?_, ih fun d hd => h d (List.mem_cons_of_mem _ hd)⟩
    intro y _ hc
    rw [h c (List.mem_cons_self c cs)] at hc
    exact Bool.false_ne_true hc.1

/-- A slug character is ASCII (so it lies where the modeled \w and
str.lower agree with Python, and its lower-case mapping is a singleton). -/
theorem slugChar_ascii {c : Char} (h : slugChar c = true) : c.toNat < 128 := by
  unfold slugChar at h
  simp only [Bool.or_eq_true, Bool.and_eq_true, beq_iff_eq] at h
  rcases h with (⟨ha, _⟩ | h) | h
  · rw [char_isAlphanum_iff] at ha; omega
  · subst h; decide
  · subst h; decide

theorem createSlugChar_ascii {c : Char} (h : createSlugChar c = true) :
    c.toNat < 128 := by
  unfold createSlugChar at h
  simp only [Bool.or_eq_true, Bool.and_eq_true, beq_iff_eq] at h
  rcases h with ⟨ha, _⟩ | h
  · rw [char_isAlphanum_iff] at ha; omega
  · subst h; decide

/-- slugify is idempotent on character lists of ASCII characters. -/
theorem slugifyL_idem {l : List Char} (hl : ∀ c ∈ l, c.toNat < 128) :
    slugifyL (slugifyL l) = slugifyL l := by
  have hchars := slugifyL_chars hl
  have hprops : ∀ c ∈ slugifyL l, allowedChar c = true ∧ isSpaceChar c = false ∧
      Char.toLower c = c ∧ (isSpaceHyphen c = true → c = '-') :=
    fun c hc => slugChar_props (hchars c hc)
  conv_lhs => rw [slugifyL]
  rw [keepAllowed_def, List.filter_eq_self.mpr fun c hc => (hprops c hc).1]
  rw [stripWs_eq_self fun c hc => (hprops c hc).2.1]
  rw [lowerAll_eq_self fun c hc => by
    rw [pyLowerChar_not_special (by have := slugChar_ascii (hchars c hc); omega),
      (hprops c hc).2.2.1]]
  apply replaceRunsAux_eq_self
  · exact fun c hc => (hprops c hc).2.2.2
  · exact chain'_replaceRunsAux _ false
  · intro hfalse
    exact absurd hfalse Bool.false_ne_true

/-- create_slug is idempotent on character lists of ASCII characters. -/
theorem create_slugL_idem {l : List Char} (hl : ∀ c ∈ l, c.toNat < 128) :
    create_slugL (create_slugL l) = create_slugL l := by
  have hchars := create_slugL_chars hl
  have hprops : ∀ c ∈ create_slugL l, allowedChar c = true ∧ isSpaceChar c = false ∧
      Char.toLower c = c ∧ isSpaceUnderscore c = false :=
    fun c hc => createSlugChar_props (hchars c hc)
  conv_lhs => rw [create_slugL]
  rw [keepAllowed_def, List.filter_eq_self.mpr fun c hc => (hprops c hc).1]
  rw [show replaceRuns isSpaceUnderscore (create_slugL l) = create_slugL l from ?_]
  · rw [stripWs_eq_self fun c hc => (hprops c hc).2.1]
    rw [lowerAll_eq_self fun c hc => by
      rw [pyLowerChar_not_special (by have := createSlugChar_ascii (hchars c hc); omega),
        (hprops c hc).2.2.1]]
  · apply replaceRunsAux_eq_self
    · intro c hc hp
      rw [(hprops c hc).2.2.2] at hp
      exact absurd hp Bool.false_ne_true
    · exact chain'_of_no_class fun c hc => (hprops c hc).2.2.2
    · intro hfalse
      exact absurd hfalse Bool.false_ne_true

end Slug

theorem foldTargets_apply (f : List PatchSummary → List PatchSummary) :
    ∀ (ts : List ModpackRef) (patches : String → List PatchSummary) (k : String),
      foldTargets f ts patches k =
        f^[ts.countP (fun m => targetKey m == k)] (patches k) := by
  intro ts
  induction ts with
  | nil => intro patches k; rfl
  | cons m ms ih =>
    intro patches k
    rw [show foldTargets f (m :: ms) patches =
      foldTargets f ms
        (fun x => if x = targetKey m then f (patches (targetKey m)) else patches x) from rfl]
    rw [ih, List.countP_cons]
    by_cases hk : targetKey m = k
    · subst hk
      simp only [if_pos rfl, beq_self_eq_true, if_true]
      exact (Function.iterate_succ_apply f _ _).symm
    · rw [if_neg (fun he => hk he.symm)]
      rw [if_neg (by simp [hk])]
      simp

/-! ### Properties of the catalog merges -/

namespace ProcessPatch


theorem updateFirst_map_others (pid v d : String) :
    ∀ l : List PatchSummary,
      (updateFirst pid v d l).map othersOf = l.map othersOf := by
  intro l
  induction l with
  | nil => rfl
  | cons s rest ih =>
    rw [updateFirst]
    by_cases hs : s.patchId == pid
    · rw [if_pos hs]
      simp [othersOf]
    · rw [if_neg hs]
      simp [ih]

theorem updateFirst_map_patchId (pid v d : String) :
    ∀ l : List PatchSummary,
      (updateFirst pid v d l).map (fun s => s.patchId) = l.map (fun s => s.patchId) := by
  intro l
  induction l with
  | nil => rfl
  | cons s rest ih =>
    rw [updateFirst]
    by_cases hs : s.patchId == pid
    · rw [if_pos hs]
      simp
    · rw [if_neg hs]
      simp [ih]

theorem updateFirst_length (pid v d : String) (l : List PatchSummary) :
    (updateFirst pid v d l).length = l.length := by
  have h := updateFirst_map_others pid v d l
  have h1 := congrArg List.length h
  simpa using h1

theorem updateFirst_countP (pid v d q : String) (l : List PatchSummary) :
    (updateFirst pid v d l).countP (fun s => s.patchId == q) =
      l.countP (fun s => s.patchId == q) := by
  have h := updateFirst_map_patchId pid v d l
  have h1 : ((updateFirst pid v d l).map (fun s => s.patchId)).countP (fun x => x == q) =
      (l.map (fun s => s.patchId)).countP (fun x => x == q) := by rw [h]
  rwa [List.countP_map, List.countP_map] at h1

theorem updateFirst_exists (pid v d : String) {l : List PatchSummary}
    (h : ∃ s ∈ l, s.patchId = pid) :
    ∃ s ∈ updateFirst pid v d l, s.patchId = pid := by
  rcases h with ⟨s, hs, hpid⟩
  have hmem : pid ∈ l.map (fun s => s.patchId) := List.mem_map.mpr ⟨s, hs, hpid⟩
  rw [← updateFirst_map_patchId pid v d l] at hmem
  rcases List.mem_map.mp hmem with ⟨t, ht, hq⟩
  exact ⟨t, ht, hq⟩

theorem updateFirst_decomp (pid v d : String) :
    ∀ {l : List PatchSummary}, (∃ s ∈ l, s.patchId = pid) →
      ∃ pre s post, l = pre ++ s :: post ∧ (∀ x ∈ pre, x.patchId ≠ pid) ∧
        s.patchId = pid ∧
        updateFirst pid v d l =
          pre ++ ({ s with latestVersion := v, description := d } :: post) := by
  intro l
  induction l with
  | nil => intro h; rcases h with ⟨s, hs, _⟩; exact absurd hs (List.not_mem_nil s)
  | cons t rest ih =>
    intro h
    by_cases ht : t.patchId = pid
    · refine ⟨[], t, rest, by simp, by simp, ht, ?_⟩
      rw [updateFirst, if_pos (by simp [ht])]
      simp
    · have hrest : ∃ s ∈ rest, s.patchId = pid := by
        rcases h with ⟨s, hs, hpid⟩
        rcases List.mem_cons.mp hs with he | he
        · exact absurd (he ▸ hpid) ht
        · exact ⟨s, he, hpid⟩
      rcases ih hrest with ⟨pre, s, post, hsplit, hpre, hpid, hupd⟩
      refine ⟨t :: pre, s, post, by rw [hsplit]; rfl, ?_, hpid, ?_⟩
      · intro x hx
        rcases List.mem_cons.mp hx with he | he
        · exact he ▸ ht
        · exact hpre x he
      · rw [updateFirst, if_neg (by simp [ht]), hupd]
        rfl

theorem updateFirst_idem (pid v d : String) :
    ∀ l : List PatchSummary,
      updateFirst pid v d (updateFirst pid v d l) = updateFirst pid v d l := by
  intro l
  induction l with
  | nil => rfl
  | cons s rest ih =>
    rw [updateFirst]
    by_cases hs : s.patchId == pid
    · rw [if_pos hs]
      rw [updateFirst, if_pos hs]
    · rw [if_neg hs]
      rw [updateFirst, if_neg hs, ih]

theorem updateFirst_append_no_match (pid v d : String) :
    ∀ {l l2 : List PatchSummary}, (∀ x ∈ l, x.patchId ≠ pid) →
      updateFirst pid v d (l ++ l2) = l ++ updateFirst pid v d l2 := by
  intro l
  induction l with
  | nil => intro l2 _; rfl
  | cons s rest ih =>
    intro l2 h
    rw [List.cons_append, updateFirst,
      if_neg (by simp [h s (List.mem_cons_self s rest)]), ih fun x hx =>
        h x (List.mem_cons_of_mem s hx)]
    rfl

theorem mergeOne_of_match (pid authorSlug patchSlug : String) (data : Submission)
    {l : List PatchSummary} (h : ∃ s ∈ l, s.patchId = pid) :
    mergeOne pid authorSlug patchSlug data l =
      updateFirst pid data.patchVersion data.description l := by
  rcases h with ⟨s, hs, hpid⟩
  have hsome : (l.find? (fun p => p.patchId == pid)).isSome := by
    rw [List.find?_isSome]
    exact ⟨s, hs, by simp [hpid]⟩
  rcases Option.isSome_iff_exists.mp hsome with ⟨x, hx⟩
  rw [mergeOne, hx]

theorem mergeOne_no_match (pid authorSlug patchSlug : String) (data : Submission)
    {l : List PatchSummary} (h : ∀ s ∈ l, s.patchId ≠ pid) :
    mergeOne pid authorSlug patchSlug data l =
      l ++ [mkSummary pid authorSlug patchSlug data] := by
  have hnone : l.find? (fun p => p.patchId == pid) = none := by
    rw [List.find?_eq_none]
    intro x hx
    simp [h x hx]
  rw [mergeOne, hnone]

theorem mergeOne_exists (pid authorSlug patchSlug : String) (data : Submission)
    (l : List PatchSummary) :
    ∃ s ∈ mergeOne pid authorSlug patchSlug data l, s.patchId = pid := by
  by_cases h : ∃ s ∈ l, s.patchId = pid
  · rw [mergeOne_of_match pid authorSlug patchSlug data h]
    exact updateFirst_exists _ _ _ h
  · push_neg at h
    rw [mergeOne_no_match pid authorSlug patchSlug data h]
    exact ⟨mkSummary pid authorSlug patchSlug data, by simp, rfl⟩

theorem mergeOne_fixed_of_match (pid authorSlug patchSlug : String) (data : Submission)
    {l : List PatchSummary} (h : ∃ s ∈ l, s.patchId = pid) :
    mergeOne pid authorSlug patchSlug data
        (updateFirst pid data.patchVersion data.description l) =
      updateFirst pid data.patchVersion data.description l := by
  rw [mergeOne_of_match pid authorSlug patchSlug data (updateFirst_exists _ _ _ h)]
  exact updateFirst_idem _ _ _ l

/-- Once a matching summary exists, every positive number of loop passes has
the same effect as a single in-place update. -/
theorem mergeOne_iterate_of_match (pid authorSlug patchSlug : String) (data : Submission)
    {l : List PatchSummary} (h : ∃ s ∈ l, s.patchId = pid) (n : Nat) :
    (mergeOne pid authorSlug patchSlug data)^[n + 1] l =
      updateFirst pid data.patchVersion data.description l := by
  rw [Function.iterate_succ_apply, mergeOne_of_match pid authorSlug patchSlug data h]
  exact Function.iterate_fixed (mergeOne_fixed_of_match pid authorSlug patchSlug data h) n

theorem mergeOne_countP_le (pid authorSlug patchSlug : String) (data : Submission)
    (q : String) {l : List PatchSummary}
    (h : l.countP (fun s => s.patchId == q) ≤ 1) :
    (mergeOne pid authorSlug patchSlug data l).countP (fun s => s.patchId == q) ≤ 1 := by
  by_cases hm : ∃ s ∈ l, s.patchId = pid
  · rw [mergeOne_of_match pid authorSlug patchSlug data hm, updateFirst_countP]
    exact h
  · push_neg at hm
    rw [mergeOne_no_match pid authorSlug patchSlug data hm, List.countP_append]
    by_cases hq : pid = q
    · have hzero : l.countP (fun s => s.patchId == q) = 0 := by
        rw [List.countP_eq_zero]
        intro s hs
        simp [hq ▸ hm s hs]
      rw [hzero]
      simp [List.countP_cons, mkSummary, hq]
    · have hone : List.countP (fun s => s.patchId == q)
          [mkSummary pid authorSlug patchSlug data] = 0 := by
        simp [List.countP_cons, mkSummary, hq]
      omega

theorem mergeOne_countP_pid (pid authorSlug patchSlug : String) (data : Submission)
    {l : List PatchSummary} (h : l.countP (fun s => s.patchId == pid) ≤ 1) :
    (mergeOne pid authorSlug patchSlug data l).countP (fun s => s.patchId == pid) = 1 := by
  by_cases hm : ∃ s ∈ l, s.patchId = pid
  · rw [mergeOne_of_match pid authorSlug patchSlug data hm, updateFirst_countP]
    rcases hm with ⟨s, hs, hpid⟩
    have hpos : 0 < l.countP (fun s => s.patchId == pid) := by
      rw [List.countP_pos_iff]
      exact ⟨s, hs, by simp [hpid]⟩
    omega
  · push_neg at hm
    rw [mergeOne_no_match pid authorSlug patchSlug data hm, List.countP_append]
    have hzero : l.countP (fun s => s.patchId == pid) = 0 := by
      rw [List.countP_eq_zero]
      intro s hs
      simp [hm s hs]
    rw [hzero]
    simp [List.countP_cons, mkSummary]

theorem mergeOne_iterate_countP (pid authorSlug patchSlug : String) (data : Submission)
    {l : List PatchSummary} (h : ∀ q, l.countP (fun s => s.patchId == q) ≤ 1) :
    ∀ n, (∀ q, ((mergeOne pid authorSlug patchSlug data)^[n] l).countP
          (fun s => s.patchId == q) ≤ 1) ∧
        (1 ≤ n → ((mergeOne pid authorSlug patchSlug data)^[n] l).countP
          (fun s => s.patchId == pid) = 1) := by
  intro n
  induction n with
  | zero => exact ⟨h, fun h1 => absurd h1 (by omega)⟩
  | succ m ih =>
    rw [Function.iterate_succ_apply']
    constructor
    · intro q
      exact mergeOne_countP_le pid authorSlug patchSlug data q (ih.1 q)
    · intro _
      exact mergeOne_countP_pid pid authorSlug patchSlug data (ih.1 pid)

end ProcessPatch

namespace Process

theorem mergeAppend_of_match (pid : String) (s : PatchSummary) {l : List PatchSummary}
    (h : ∃ x ∈ l, x.patchId = pid) : mergeOne pid s l = l := by
  rw [mergeOne, if_pos]
  rcases h with ⟨x, hx, hpid⟩
  rw [List.any_eq_true]
  exact ⟨x, hx, by simp [hpid]⟩

theorem mergeAppend_no_match (pid : String) (s : PatchSummary) {l : List PatchSummary}
    (h : ∀ x ∈ l, x.patchId ≠ pid) : mergeOne pid s l = l ++ [s] := by
  rw [mergeOne, if_neg]
  rw [List.any_eq_true]
  rintro ⟨x, hx, hpid⟩
  exact h x hx (by simpa using hpid)

theorem mergeAppend_iterate_of_match (pid : String) (s : PatchSummary)
    {l : List PatchSummary} (h : ∃ x ∈ l, x.patchId = pid) (n : Nat) :
    (mergeOne pid s)^[n] l = l :=
  Function.iterate_fixed (mergeAppend_of_match pid s h) n

theorem mergeAppend_countP_le (pid : String) (s : PatchSummary) (hs : s.patchId = pid)
    (q : String) {l : List PatchSummary}
    (h : l.countP (fun x => x.patchId == q) ≤ 1) :
    (mergeOne pid s l).countP (fun x => x.patchId == q) ≤ 1 := by
  by_cases hm : ∃ x ∈ l, x.patchId = pid
  · rw [mergeAppend_of_match pid s hm]
    exact h
  · push_neg at hm
    rw [mergeAppend_no_match pid s hm, List.countP_append]
    by_cases hq : pid = q
    · have hzero : l.countP (fun x => x.patchId == q) = 0 := by
        rw [List.countP_eq_zero]
        intro x hx
        simp [hq ▸ hm x hx]
      rw [hzero]
      simp [List.countP_cons, hs, hq]
    · have hone : List.countP (fun x => x.patchId == q) [s] = 0 := by
        simp [List.countP_cons, hs, hq]
      omega

theorem mergeAppend_countP_pid (pid : String) (s : PatchSummary) (hs : s.patchId = pid)
    {l : List PatchSummary} (h : l.countP (fun x => x.patchId == pid) ≤ 1) :
    (mergeOne pid s l).countP (fun x => x.patchId == pid) = 1 := by
  by_cases hm : ∃ x ∈ l, x.patchId = pid
  · rw [mergeAppend_of_match pid s hm]
    rcases hm with ⟨x, hx, hpid⟩
    have hpos : 0 < l.countP (fun x => x.patchId == pid) := by
      rw [List.countP_pos_iff]
      exact ⟨x, hx, by simp [hpid]⟩
    omega
  · push_neg at hm
    rw [mergeAppend_no_match pid s hm, List.countP_append]
    have hzero : l.countP (fun x => x.patchId == pid) = 0 := by
      rw [List.countP_eq_zero]
      intro x hx
      simp [hm x hx]
    rw [hzero]
    simp [List.countP_cons, hs]

theorem mergeAppend_iterate_countP (pid : String) (s : PatchSummary) (hs : s.patchId = pid)
    {l : List PatchSummary} (h : ∀ q, l.countP (fun x => x.patchId == q) ≤ 1) :
    ∀ n, (∀ q, ((mergeOne pid s)^[n] l).countP (fun x => x.patchId == q) ≤ 1) ∧
        (1 ≤ n → ((mergeOne pid s)^[n] l).countP (fun x => x.patchId == pid) = 1) := by
  intro n
  induction n with
  | zero => exact ⟨h, fun h1 => absurd h1 (by omega)⟩
  | succ m ih =>
    rw [Function.iterate_succ_apply']
    constructor
    · intro q
      exact mergeAppend_countP_le pid s hs q (ih.1 q)
    · intro _
      exact mergeAppend_countP_pid pid s hs (ih.1 pid)

end Process

/-! ### Claims -/

/-- C1 counterexample: merging a resubmission whose patchAuthor is
"New Author" into a catalog whose matching summary has author "Old Author"
leaves the stored author unchanged (process_patch.py lines 255-257 update
only latestVersion and description), so the claim that the merge updates
latestVersion, author and description in place is false at this input. -/
theorem c1_counterexample :
    sampleSubmission.patchAuthor = "New Author" ∧
      ((ProcessPatch.mergeCatalog sampleIndex "now" "team-x" "my-patch"
          sampleSubmission).patches "curseforge:PackA").map (fun s => s.author) =
        ["Old Author"] ∧
      ("Old Author" : String) ≠ "New Author" := by
  refine ⟨rfl, ?_, by decide⟩
  rfl

/-- C1 (amended): when the catalog already holds a summary with the
submission's patchId under a key, process_patch.py's merge rewrites exactly
the latestVersion and description of the first such summary in place: all
other fields of every summary, the order, and the length of the key's list
are unchanged, and no entry is appended; process.py's merge leaves the
key's list entirely unchanged in that situation (it updates nothing). -/
theorem c1_merge_update_in_place :
    (∀ (idx : IndexData) (now authorSlug patchSlug : String)
        (data : ProcessPatch.Submission) (k : String),
      (∃ s ∈ idx.patches k, s.patchId = authorSlug ++ "/" ++ patchSlug) →
      ((ProcessPatch.mergeCatalog idx now authorSlug patchSlug data).patches k).map
            othersOf = (idx.patches k).map othersOf ∧
        ((ProcessPatch.mergeCatalog idx now authorSlug patchSlug data).patches k).length =
          (idx.patches k).length ∧
        (0 < data.supportedModpacksList.countP (fun m => targetKey m == k) →
          ∃ pre s post, idx.patches k = pre ++ s :: post ∧
            (∀ x ∈ pre, x.patchId ≠ authorSlug ++ "/" ++ patchSlug) ∧
            s.patchId = authorSlug ++ "/" ++ patchSlug ∧
            (ProcessPatch.mergeCatalog idx now authorSlug patchSlug data).patches k =
              pre ++ ({ s with
                        latestVersion := data.patchVersion,
                        description := data.description } :: post))) ∧
    (∀ (idx : IndexData) (now pid : String) (s : PatchSummary)
        (mods : List ModpackRef) (k : String),
      (∃ x ∈ idx.patches k, x.patchId = pid) →
      (Process.mergeCatalog idx now pid s mods).patches k = idx.patches k) := by
  constructor
  · intro idx now authorSlug patchSlug data k hmatch
    have hfold : (ProcessPatch.mergeCatalog idx now authorSlug patchSlug data).patches k =
        (ProcessPatch.mergeOne (authorSlug ++ "/" ++ patchSlug) authorSlug patchSlug
          data)^[data.supportedModpacksList.countP (fun m => targetKey m == k)]
          (idx.patches k) :=
      foldTargets_apply _ _ _ _
    rcases hn : data.supportedModpacksList.countP (fun m => targetKey m == k) with _ | m
    · rw [hn] at hfold
      rw [hfold]
      exact ⟨rfl, rfl, fun hpos => absurd hpos (by omega)⟩
    · rw [hn] at hfold
      rw [ProcessPatch.mergeOne_iterate_of_match _ _ _ _ hmatch] at hfold
      rcases ProcessPatch.updateFirst_decomp (authorSlug ++ "/" ++ patchSlug)
        data.patchVersion data.description hmatch with
        ⟨pre, s, post, hsplit, hpre, hpid, hupd⟩
      refine ⟨?_, ?_, ?_⟩
      · rw [hfold]
        exact ProcessPatch.updateFirst_map_others _ _ _ _
      · rw [hfold]
        exact ProcessPatch.updateFirst_length _ _ _ _
      · intro _
        exact ⟨pre, s, post, hsplit, hpre, hpid, by rw [hfold, hupd]⟩
  · intro idx now pid s mods k hmatch
    have hfold : (Process.mergeCatalog idx now pid s mods).patches k =
        (Process.mergeOne pid s)^[mods.countP (fun m => targetKey m == k)]
          (idx.patches k) :=
      foldTargets_apply _ _ _ _
    rw [hfold]
    exact Process.mergeAppend_iterate_of_match pid s hmatch _

/-- Witness for C1: at the sample resubmission the merged list still has one
entry whose identifying fields are unchanged, and process.py leaves the
sample list untouched. -/
theorem c1_merge_update_in_place_witness :
    ((ProcessPatch.mergeCatalog sampleIndex "now" "team-x" "my-patch"
        sampleSubmission).patches "curseforge:PackA").map othersOf =
      [sampleSummaryOld].map othersOf ∧
    (Process.mergeCatalog sampleIndex "now" "team-x/my-patch" sampleSummaryOld
        [sampleTarget]).patches "curseforge:PackA" = [sampleSummaryOld] := by
  constructor
  · exact (c1_merge_update_in_place.1 sampleIndex "now" "team-x" "my-patch"
      sampleSubmission "curseforge:PackA"
      ⟨sampleSummaryOld, by decide, by decide⟩).1
  · exact c1_merge_update_in_place.2 sampleIndex "now" "team-x/my-patch" sampleSummaryOld
      [sampleTarget] "curseforge:PackA" ⟨sampleSummaryOld, by decide, by decide⟩

/-- C5: both catalog merges preserve the invariant that each
(targetKey, patchId) pair occurs at most once, and merging the same
submission twice leaves exactly one summary for its patchId under every
key derived from its targets. -/
theorem c5_catalog_uniqueness :
    (∀ (idx : IndexData) (now now2 authorSlug patchSlug : String)
        (data : ProcessPatch.Submission),
      (∀ k q, ((idx.patches k).countP (fun s => s.patchId == q)) ≤ 1) →
      (∀ k q, (((ProcessPatch.mergeCatalog idx now authorSlug patchSlug data).patches
          k).countP (fun s => s.patchId == q)) ≤ 1) ∧
        (∀ m ∈ data.supportedModpacksList,
          (((ProcessPatch.mergeCatalog (ProcessPatch.mergeCatalog idx now authorSlug
              patchSlug data) now2 authorSlug patchSlug data).patches
            (targetKey m)).countP
              (fun s => s.patchId == authorSlug ++ "/" ++ patchSlug)) = 1)) ∧
    (∀ (idx : IndexData) (now now2 pid : String) (s : PatchSummary)
        (mods : List ModpackRef),
      s.patchId = pid →
      (∀ k q, ((idx.patches k).countP (fun x => x.patchId == q)) ≤ 1) →
      (∀ k q, (((Process.mergeCatalog idx now pid s mods).patches k).countP
          (fun x => x.patchId == q)) ≤ 1) ∧
        (∀ m ∈ mods,
          (((Process.mergeCatalog (Process.mergeCatalog idx now pid s mods) now2 pid s
              mods).patches (targetKey m)).countP (fun x => x.patchId == pid)) = 1)) := by
  constructor
  · intro idx now now2 authorSlug patchSlug data huniq
    have hfold : ∀ (base : IndexData) (t : String) (k : String),
        (ProcessPatch.mergeCatalog base t authorSlug patchSlug data).patches k =
          (ProcessPatch.mergeOne (authorSlug ++ "/" ++ patchSlug) authorSlug patchSlug
            data)^[data.supportedModpacksList.countP (fun m => targetKey m == k)]
            (base.patches k) :=
      fun base t k => foldTargets_apply _ _ _ _
    constructor
    · intro k q
      rw [hfold idx now k]
      exact (ProcessPatch.mergeOne_iterate_countP _ _ _ _ (huniq k) _).1 q
    · intro m hm
      rw [hfold _ now2 (targetKey m), hfold idx now (targetKey m),
        ← Function.iterate_add_apply]
      have hpos : 0 < data.supportedModpacksList.countP
          (fun x => targetKey x == targetKey m) := by
        rw [List.countP_pos_iff]
        exact ⟨m, hm, by simp⟩
      exact (ProcessPatch.mergeOne_iterate_countP _ _ _ _ (huniq (targetKey m)) _).2
        (by omega)
  · intro idx now now2 pid s mods hs huniq
    have hfold : ∀ (base : IndexData) (t : String) (k : String),
        (Process.mergeCatalog base t pid s mods).patches k =
          (Process.mergeOne pid s)^[mods.countP (fun m => targetKey m == k)]
            (base.patches k) :=
      fun base t k => foldTargets_apply _ _ _ _
    constructor
    · intro k q
      rw [hfold idx now k]
      exact (Process.mergeAppend_iterate_countP pid s hs (huniq k) _).1 q
    · intro m hm
      rw [hfold _ now2 (targetKey m), hfold idx now (targetKey m),
        ← Function.iterate_add_apply]
      have hpos : 0 < mods.countP (fun x => targetKey x == targetKey m) := by
        rw [List.countP_pos_iff]
        exact ⟨m, hm, by simp⟩
      exact (Process.mergeAppend_iterate_countP pid s hs (huniq (targetKey m)) _).2 (by omega)

/-- Witness for C5: merging the sample submission twice into the empty
catalog yields exactly one summary for its patchId under its key, for both
scripts. -/
theorem c5_catalog_uniqueness_witness :
    (((ProcessPatch.mergeCatalog (ProcessPatch.mergeCatalog emptyIndex "t1" "team-x"
        "my-patch" sampleSubmission) "t2" "team-x" "my-patch"
        sampleSubmission).patches "curseforge:PackA").countP
      (fun s => s.patchId == "team-x/my-patch")) = 1 ∧
    (((Process.mergeCatalog (Process.mergeCatalog emptyIndex "t1" "team-x/my-patch"
        sampleSummaryOld [sampleTarget]) "t2" "team-x/my-patch" sampleSummaryOld
        [sampleTarget]).patches "curseforge:PackA").countP
      (fun s => s.patchId == "team-x/my-patch")) = 1 := by
  constructor
  · exact (c5_catalog_uniqueness.1 emptyIndex "t1" "t2" "team-x" "my-patch"
      sampleSubmission (fun k q => by simp [emptyIndex])).2 sampleTarget (by decide)
  · exact (c5_catalog_uniqueness.2 emptyIndex "t1" "t2" "team-x/my-patch"
      sampleSummaryOld [sampleTarget] (by decide)
      (fun k q => by simp [emptyIndex])).2 sampleTarget (by decide)

/-- C2 counterexample: an archive with a stray README.md at top level next
to the overrides directory is accepted by process.py's check (it only asks
whether some entry name starts with "overrides/"), so the claim that every
such archive fails with InvalidArchiveStructure is false at this input. -/
theorem c2_counterexample :
    Process.zipCheck ["overrides/a.txt", "README.md"] = Except.ok () := rfl

/-- C2 (amended): process_patch.py's generate_file_manifest fails with
the structure error, before extracting anything, whenever the archive is empty
or some entry's top-level path component differs from overrides; process.py
instead accepts an archive exactly when some entry name starts with
"overrides/", so it tolerates extra top-level entries. -/
theorem c2_structure_validation :
    (∀ (sha1 : List Char → String) (entries : List ProcessPatch.ZipEntry),
      (entries = [] ∨ ∃ e ∈ entries, ProcessPatch.topComponent e.name ≠ "overrides") →
      ProcessPatch.generate_file_manifest sha1 entries =
        Except.error ArchiveErr.invalidArchiveStructure) ∧
    (∀ names : List String,
      Process.zipCheck names = Except.ok () ↔
        ∃ n ∈ names, beginsWith "overrides/" n = true) := by
  constructor
  · intro sha1 entries h
    rw [ProcessPatch.generate_file_manifest, if_neg]
    intro hvalid
    rw [ProcessPatch.rootsValid, Bool.and_eq_true] at hvalid
    rcases h with h | ⟨e, he, hne⟩
    · rw [h] at hvalid
      exact absurd hvalid.1 (by decide)
    · have := List.all_eq_true.mp hvalid.2 e.name (List.mem_map_of_mem _ he)
      exact hne (by simpa using this)
  · intro names
    rw [Process.zipCheck]
    by_cases h : names.any (fun n => beginsWith "overrides/" n)
    · rw [if_pos h]
      simp only [true_iff]
      rcases List.any_eq_true.mp h with ⟨n, hn, hb⟩
      exact ⟨n, hn, hb⟩
    · rw [if_neg h]
      constructor
      · intro he
        exact absurd he (by simp)
      · rintro ⟨n, hn, hb⟩
        exact absurd (List.any_eq_true.mpr ⟨n, hn, hb⟩) h

/-- Witness for C2: the stray README archive is rejected by
process_patch.py, and an overrides-only name list passes process.py. -/
theorem c2_structure_validation_witness :
    ProcessPatch.generate_file_manifest (fun _ => "")
        [⟨"overrides/a.txt", ['x']⟩, ⟨"README.md", ['y']⟩] =
      Except.error ArchiveErr.invalidArchiveStructure ∧
    Process.zipCheck ["overrides/a.txt"] = Except.ok () := by
  constructor
  · exact c2_structure_validation.1 _ _
      (Or.inr ⟨⟨"README.md", ['y']⟩, by decide, by decide⟩)
  · exact (c2_structure_validation.2 ["overrides/a.txt"]).mpr
      ⟨"overrides/a.txt", by decide, by decide⟩

/-- C3 counterexample: an archive whose overrides tree holds no regular file
(only the directory entry itself) makes generate_file_manifest succeed with
an empty file-record list, so the claim that it fails (EmptyOverrideTree)
is false at this input. -/
theorem c3_counterexample :
    ProcessPatch.generate_file_manifest (fun _ => "") [⟨"overrides/", []⟩] =
      Except.ok [] := rfl

/-- C3 (amended): an extracted overrides tree with zero regular files is not
rejected: whenever the structure check passes and every entry is a
directory, generate_file_manifest succeeds with the empty record list (no
EmptyOverrideTree failure exists in the code). -/
theorem c3_empty_tree_accepted :
    ∀ (sha1 : List Char → String) (entries : List ProcessPatch.ZipEntry),
      ProcessPatch.rootsValid (entries.map (fun e => e.name)) = true →
      (∀ e ∈ entries, ProcessPatch.isDirEntry e = true) →
      ProcessPatch.generate_file_manifest sha1 entries = Except.ok [] := by
  intro sha1 entries hroot hdir
  rw [ProcessPatch.generate_file_manifest, if_pos hroot]
  have hfilter : entries.filter (fun e => !ProcessPatch.isDirEntry e) = [] := by
    rw [List.filter_eq_nil_iff]
    intro e he
    simp [hdir e he]
  rw [hfilter]
  rfl

/-- Witness for C3: a directories-only archive yields the empty manifest. -/
theorem c3_empty_tree_accepted_witness :
    ProcessPatch.generate_file_manifest (fun _ => "x")
        [⟨"overrides/", []⟩, ⟨"overrides/mods/", []⟩] = Except.ok [] :=
  c3_empty_tree_accepted _ _ (by decide) (by decide)

/-- C4: merging a version entry into an absent record creates a record whose
header comes from the submission and whose versions list is exactly the new
entry; merging into an existing record only conses the entry onto versions,
leaving the header fields and all prior entries unchanged, for both scripts;
applying the merge twice puts the newer entry at index 0. -/
theorem c4_merge_version_insert :
    ∀ (pid : String) (data : ProcessPatch.Submission) (e1 e2 : VersionEntry)
      (r : ProcessPatch.InfoData) (name author description : String)
      (rp : Process.InfoData),
      ProcessPatch.updateInfo none pid data e1 =
        { formatVersion := 1, patchId := pid, patchName := data.patchName,
          author := data.patchAuthor, description := data.description,
          website := data.website, versions := [e1] } ∧
      ProcessPatch.updateInfo (some r) pid data e1 =
        { r with versions := e1 :: r.versions } ∧
      (ProcessPatch.updateInfo (some (ProcessPatch.updateInfo none pid data e1)) pid
          data e2).versions = [e2, e1] ∧
      Process.updateInfo none pid name author description e1 =
        { formatVersion := 1, patchId := pid, patchName := name, author := author,
          description := description, versions := [e1] } ∧
      Process.updateInfo (some rp) pid name author description e1 =
        { rp with versions := e1 :: rp.versions } := by
  intro pid data e1 e2 r name author description rp
  exact ⟨rfl, rfl, rfl, rfl, rfl⟩

/-- C6 counterexample: when the existing index.json fails to parse, the run
has already written the package and info.json (process.py writes them at
lines 159 and 190 before reading index.json at line 196), so the claim that
no persisted file has been written on a fatal PersistedStateCorrupt error
is false. -/
theorem c6_counterexample :
    (Process.persistPhase false).2 = some RunErr.persistedStateCorrupt ∧
      FileWrite.packageHtp ∈ (Process.persistPhase false).1 ∧
      FileWrite.infoJson ∈ (Process.persistPhase false).1 := by
  exact ⟨rfl, by decide, by decide⟩

/-- C6 (amended): a fatal index.json parse failure aborts before index.json
itself is written, but the writes that precede the parse in program order
have already happened: process.py has written the package and info.json,
and process_patch.py has written info.json. -/
theorem c6_partial_persistence :
    ∀ b : Bool, (Process.persistPhase b).2.isSome = true →
      (Process.persistPhase b).1 = [FileWrite.packageHtp, FileWrite.infoJson] ∧
        FileWrite.indexJson ∉ (Process.persistPhase b).1 ∧
        (ProcessPatch.persistPhase b).1 = [FileWrite.infoJson] ∧
        FileWrite.indexJson ∉ (ProcessPatch.persistPhase b).1 := by
  intro b hb
  cases b with
  | false => exact ⟨rfl, by decide, rfl, by decide⟩
  | true => exact absurd hb (by simp [Process.persistPhase])

/-- Witness for C6: the corrupt-index run writes exactly the package and
info.json in process.py. -/
theorem c6_partial_persistence_witness :
    (Process.persistPhase false).1 = [FileWrite.packageHtp, FileWrite.infoJson] :=
  (c6_partial_persistence false (by decide)).1

/-- C7 counterexample: slugify keeps underscores (the Python class \w used
by the first substitution includes the underscore, and the second
substitution only collapses whitespace and hyphens), so slugify "a_b" is
"a_b", which is nonempty and does not match the spec regex. -/
theorem c7_counterexample :
    Slug.slugify "a_b" = "a_b" ∧ ("a_b" : String) ≠ "" ∧
      Slug.matchesSlugShape "a_b" = false := by
  exact ⟨rfl, by decide, rfl⟩

/-- C7 (amended): for every input made of ASCII characters (Python's \w
keeps all Unicode word characters, so non-ASCII letters pass through both
normalizers unchanged and no fixed output alphabet holds for them), every
character of slugify output is a lower-case alphanumeric, an underscore or
a hyphen, and no two hyphens are adjacent (underscores are kept rather
than collapsed, and leading or trailing hyphens are not trimmed); every
character of create_slug output is a lower-case alphanumeric or a hyphen
(runs of pre-existing hyphens may remain adjacent there). -/
theorem c7_slug_output_shape :
    ∀ s : String, (∀ c ∈ s.data, c.toNat < 128) →
      ((Slug.slugify s).data.all Slug.slugChar = true ∧
        List.Chain' (fun a b => ¬(a = '-' ∧ b = '-')) (Slug.slugify s).data) ∧
      (Slug.create_slug s).data.all Slug.createSlugChar = true := by
  intro s hs
  refine ⟨⟨?_, ?_⟩, ?_⟩
  · rw [List.all_eq_true]
    exact fun c hc => Slug.slugifyL_chars hs c hc
  · exact Slug.slugifyL_no_adjacent_hyphens s.data
  · rw [List.all_eq_true]
    exact fun c hc => Slug.create_slugL_chars hs c hc

/-- Witness for C7: the sample author name is ASCII, and its slug output
satisfies the amended shape. -/
theorem c7_slug_output_shape_witness :
    (Slug.slugify "Team X_2 -ok").data.all Slug.slugChar = true ∧
      (Slug.create_slug "Team X_2 -ok").data.all Slug.createSlugChar = true := by
  have h := c7_slug_output_shape "Team X_2 -ok" (by decide)
  exact ⟨h.1.1, h.2⟩

/-- C8 counterexample: the normalizers are not idempotent on full Unicode:
Python's str.lower maps İ (U+0130) to the two characters i plus combining
dot above (U+0307), and the combining dot, not being a word character, is
deleted by the next pass's first substitution, so applying slugify (or
create_slug) twice to the one-character string İ gives i, not the
two-character first output. -/
theorem c8_counterexample :
    Slug.slugify "İ" = "i̇" ∧ Slug.slugify (Slug.slugify "İ") = "i" ∧
      Slug.create_slug "İ" = "i̇" ∧
      Slug.create_slug (Slug.create_slug "İ") = "i" ∧
      ("i" : String) ≠ "i̇" := by
  exact ⟨rfl, rfl, rfl, rfl, by decide⟩

/-- C8 (amended): both slug normalizers are idempotent on every input made
of ASCII characters; on full Unicode idempotence fails because İ
lower-cases to two characters whose combining dot the second pass strips. -/
theorem c8_slug_idempotent :
    ∀ s : String, (∀ c ∈ s.data, c.toNat < 128) →
      Slug.slugify (Slug.slugify s) = Slug.slugify s ∧
      Slug.create_slug (Slug.create_slug s) = Slug.create_slug s := by
  intro s hs
  exact ⟨congrArg String.mk (Slug.slugifyL_idem hs),
    congrArg String.mk (Slug.create_slugL_idem hs)⟩

/-- Witness for C8: idempotence at a concrete ASCII input. -/
theorem c8_slug_idempotent_witness :
    Slug.slugify (Slug.slugify "Team X_2 -ok") = Slug.slugify "Team X_2 -ok" ∧
      Slug.create_slug (Slug.create_slug "Team X_2 -ok") =
        Slug.create_slug "Team X_2 -ok" :=
  c8_slug_idempotent "Team X_2 -ok" (by decide)

theorem getKey_some {data : List (String × String)} {k v : String}
    (h : data.lookup k = some v) : Process.getKey data k = Except.ok v := by
  rw [Process.getKey, h]

/-- C9: the package file name strips every leading v from the submitted
patchVersion, while the manifest and the new version entry record the
submitted patchVersion verbatim; for version v1.0.0 and slug my-patch the
file is my-patch-1.0.0.htp. -/
theorem c9_version_lstrip :
    ∀ (data : List (String × String)) (pn pa pv desc cl patchSlug now url sha1Val : String)
      (mods : List ModpackRef) (files : List FileRecord),
      data.lookup "patchName" = some pn →
      data.lookup "patchAuthor" = some pa →
      data.lookup "patchVersion" = some pv →
      data.lookup "description" = some desc →
      data.lookup "changelog" = some cl →
      Process.buildManifestMeta data mods files =
          Except.ok { formatVersion := 1, patchName := pn, patchVersion := pv,
                      patchAuthor := pa, description := desc,
                      translationType := "manual", supportedModpacks := mods,
                      fileManifest := files } ∧
        Process.mkVersionEntry data now mods url sha1Val =
          Except.ok { patchVersion := pv, releaseDate := now, changelog := cl,
                      supportedModpackVersions := mods,
                      downloads := [{ type := "direct", name := "GitHub Raw",
                                      url := url, sha1 := sha1Val }] } ∧
        Process.htpFilename patchSlug pv =
          patchSlug ++ "-" ++ String.mk (pv.data.dropWhile (fun c => c == 'v')) ++
            ".htp" ∧
        Process.htpFilename "my-patch" "v1.0.0" = "my-patch-1.0.0.htp" := by
  intro data pn pa pv desc cl patchSlug now url sha1Val mods files h1 h2 h3 h4 h5
  refine ⟨?_, ?_, rfl, rfl⟩
  · rw [Process.buildManifestMeta]
    rw [getKey_some h1, getKey_some h3, getKey_some h2, getKey_some h4]
    rfl
  · rw [Process.mkVersionEntry]
    rw [getKey_some h3, getKey_some h5]
    rfl

/-- Witness for C9 at the sample data: the recorded entry keeps v1.0.0 while
the file name is my-patch-1.0.0.htp. -/
theorem c9_version_lstrip_witness :
    Process.mkVersionEntry sampleFormData "now" [] "u" "s" =
        Except.ok { patchVersion := "v1.0.0", releaseDate := "now", changelog := "c",
                    supportedModpackVersions := [],
                    downloads := [{ type := "direct", name := "GitHub Raw",
                                    url := "u", sha1 := "s" }] } ∧
      Process.htpFilename "my-patch" "v1.0.0" = "my-patch-1.0.0.htp" := by
  have h := c9_version_lstrip sampleFormData "My Patch" "Team X" "v1.0.0" "d" "c"
    "my-patch" "now" "u" "s" [] [] rfl rfl rfl rfl rfl
  exact ⟨h.2.1, h.2.2.2⟩

/-- C10: the required-field check does not require description or changelog,
so a submission lacking both passes the check, and then building the
manifest raises KeyError for description and building the version entry
raises KeyError for changelog. -/
theorem c10_missing_fields_keyerror :
    Process.formComplete incompleteFormData = true ∧
      incompleteFormData.lookup "description" = none ∧
      incompleteFormData.lookup "changelog" = none ∧
      "description" ∉ Process.requiredKeys ∧
      "changelog" ∉ Process.requiredKeys ∧
      Process.buildManifestMeta incompleteFormData [] [] =
        Except.error "description" ∧
      Process.mkVersionEntry incompleteFormData "now" [] "u" "s" =
        Except.error "changelog" := by
  exact ⟨rfl, rfl, rfl, by decide, by decide, rfl, rfl⟩

/-! ### Evaluation checks -/

example : Slug.slugify "My Patch" = "my-patch" := by rfl
example : Slug.create_slug "Team X" = "team-x" := by rfl
example : Slug.slugify "a_b" = "a_b" := by rfl
example : Slug.create_slug "a_b" = "a-b" := by rfl
example : Slug.create_slug "-a--b-" = "-a--b-" := by rfl
example : Slug.slugify " -a--b- " = "-a-b-" := by rfl
example : Slug.matchesSlugShape "my-patch" = true := by rfl
example : Slug.matchesSlugShape "a_b" = false := by rfl
example : Slug.matchesSlugShape "-a" = false := by rfl

example : ProcessPatch.topComponent "overrides/" = "overrides" := by rfl
example : ProcessPatch.topComponent "overrides/mods/foo.jar" = "overrides" := by rfl
example : ProcessPatch.topComponent "README.md" = "README.md" := by rfl
example : ProcessPatch.topComponent "" = "." := by rfl
example : ProcessPatch.rootsValid ["overrides/", "overrides/a.txt"] = true := by rfl
example : ProcessPatch.rootsValid ["overrides/a.txt", "README.md"] = false := by rfl
example : ProcessPatch.rootsValid [] = false := by rfl
example : Process.zipCheck ["overrides/a.txt", "README.md"] = Except.ok () := by rfl
example : Process.zipCheck ["README.md"] = Except.error ArchiveErr.invalidArchiveStructure := by rfl
example : ProcessPatch.relFromOverrides "overrides/mods/foo.jar" = "mods/foo.jar" := by rfl
example : Process.htpFilename "my-patch" "v1.0.0" = "my-patch-1.0.0.htp" := by rfl
example : Process.htpFilename "my-patch" "vvv2" = "my-patch-2.htp" := by rfl
